import Mathlib

/-!
Shallow embedding of the retrieval-aggregation and knowledge-graph-assembly
core of the `atlas-ai-kg` backend (files `backend/fastapi/utils.py` and
`backend/fastapi/main.py`), together with theorems settling the spec claims.

Conventions of the embedding:
* Python floats (chunk distances, averages) are modelled as rationals `ℚ`:
  the aggregation logic only compares, adds and divides distances.
* Python's stable `sorted(xs, key=...)` is modelled by a stable insertion
  sort `sortBy` over a boolean "may stay before" relation.
* Python `dict` / `defaultdict` accumulators keyed by id are modelled as
  association lists in insertion order, exactly as CPython's insertion-order
  dict iteration.
* Fallible collaborator calls (Postgres entity query, the Neo4j session) are
  modelled with `Except Fault`; a raised exception is `.error`.
-/

namespace AtlasKG

/-- Failure kinds observable at the boundaries of the embedded code:
HTTP exceptions raised by the endpoints, and collaborator exceptions. -/
inductive Fault where
  | http (status : Nat) (detail : String)
  | collaborator (msg : String)
deriving DecidableEq

/-- One row of the nearest-neighbor hit pool returned by the Postgres
`chunk` query: `(chunk_id, document_id, ord, text, distance)`.
`ord` is nullable in the row (`int(ord_) if ord_ is not None else 0`). -/
structure Row where
  chunk_id : String
  document_id : String
  ord : Option Int
  text : String
  distance : ℚ
deriving DecidableEq

/-- The per-chunk dict built in step 3 of `search_rag` (utils.py lines
98-104): `{"chunk_id": ..., "ord": int(ord_) if ord_ is not None else 0,
"text": ..., "distance": float(distance)}`. -/
structure Chunk where
  chunk_id : String
  ord : Int
  text : String
  distance : ℚ
deriving DecidableEq

/-- utils.py line 99-104: the chunk dict built from a fetched row. -/
def chunkOfRow (r : Row) : Chunk :=
  { chunk_id := r.chunk_id
    ord := r.ord.getD 0
    text := r.text
    distance := r.distance }

/-- Stable insertion of `a` into `l`: `a` is placed before the first element
`b` with `le a b`.  Used to model Python's stable `sorted`. -/
def insertBy (le : α → α → Bool) (a : α) : List α → List α
  | [] => [a]
  | b :: bs => if le a b then a :: b :: bs else b :: insertBy le a bs

/-- Stable sort modelling Python's `sorted(xs, key=...)`: elements comparing
equal keep their original relative order (each element is inserted before
the first later element it compares `le` to). -/
def sortBy (le : α → α → Bool) : List α → List α
  | [] => []
  | a :: as => insertBy le a (sortBy le as)

/-- Comparison used by `sorted(info["chunks"], key=lambda x: x["distance"])`. -/
def chunkLe (a b : Chunk) : Bool := a.distance ≤ b.distance

/-- One step of the `docs_tmp[document_id]["chunks"].append(...)` loop
(utils.py lines 97-105): append chunk `c` to the group of key `d`,
creating the group at the end on first appearance (CPython dict order). -/
def insertChunk (acc : List (String × List Chunk)) (d : String) (c : Chunk) :
    List (String × List Chunk) :=
  match acc with
  | [] => [(d, [c])]
  | p :: rest => if p.1 = d then (p.1, p.2 ++ [c]) :: rest else p :: insertChunk rest d c

/-- Membership-respecting lookup in a grouping accumulator: the value of the
first pair whose key is `d` (CPython dict lookup), `[]` when the key is
absent. -/
def lookupGroup : List (String × List Chunk) → String → List Chunk
  | [], _ => []
  | p :: rest, d => if p.1 = d then p.2 else lookupGroup rest d

/-- Step 3 of `search_rag` (utils.py lines 96-105): group the fetched rows
by `document_id`, in insertion order, converting each row to its chunk
dict. -/
def groupRows (rows : List Row) : List (String × List Chunk) :=
  rows.foldl (fun acc r => insertChunk acc r.document_id (chunkOfRow r)) []

/-- The per-document aggregate built in step 4 of `search_rag` (utils.py
lines 107-116). -/
structure DocAgg where
  document_id : String
  avg_distance : ℚ
  chunks : List Chunk
deriving DecidableEq

/-- Step 4 body for one document (utils.py lines 110-116):
`sorted_chunks = sorted(info["chunks"], key=lambda x: x["distance"])[:top_chunks]`,
`avg_distance = sum(c["distance"] for c in sorted_chunks) / len(sorted_chunks)`. -/
def aggDoc (top_chunks : Nat) (d : String) (cs : List Chunk) : DocAgg :=
  let sorted_chunks := (sortBy chunkLe cs).take top_chunks
  { document_id := d
    avg_distance := (sorted_chunks.map Chunk.distance).sum / (sorted_chunks.length : ℚ)
    chunks := sorted_chunks }

/-- Comparison used by `sorted(docs_list, key=lambda x: x["avg_distance"])`. -/
def docLe (a b : DocAgg) : Bool := a.avg_distance ≤ b.avg_distance

/-- Steps 3-5 of `search_rag` (utils.py lines 96-119): group by document,
keep the best `top_chunks` per document with the average distance over the
kept chunks, sort documents ascending by `avg_distance`, keep `top_docs`. -/
def aggregate (top_chunks top_docs : Nat) (rows : List Row) : List DocAgg :=
  (sortBy docLe ((groupRows rows).map fun p => aggDoc top_chunks p.1 p.2)).take top_docs

/-- An entity attached to a chunk: the `{"name": ..., "type": ...}` dicts of
utils.py lines 149 and 158. -/
structure Entity where
  name : String
  type : String
deriving DecidableEq

/-- One row of the `chunk_entity JOIN entity` query (utils.py lines
138-149): `(chunk_id, name, type)`. -/
structure EntityRow where
  chunk_id : String
  name : String
  type : String
deriving DecidableEq

/-- The `seen`-set loop of utils.py lines 152-158, run over the stream of
entities obtained by walking the selected chunks in rank order: an entity
is appended iff its `(name, type)` pair has not been seen yet for this
document. -/
def dedupEntsAux (acc : List Entity) (seen : List (String × String)) :
    List Entity → List Entity
  | [] => acc
  | e :: es =>
    if (e.name, e.type) ∈ seen then dedupEntsAux acc seen es
    else dedupEntsAux (acc ++ [e]) ((e.name, e.type) :: seen) es

/-- utils.py lines 151-158: the entity list accumulated for one document,
iterating its selected chunks in rank order and looking up each chunk's
entities. -/
def entitiesForDoc (chunk_to_entities : String → List Entity)
    (chunks : List Chunk) : List Entity :=
  dedupEntsAux [] [] (chunks.flatMap fun c => chunk_to_entities c.chunk_id)

/-- A row of the `document` metadata query (utils.py lines 123-131);
`title`, `source_url`, `sha256` are nullable columns. -/
structure DocMeta where
  title : Option String
  source_url : Option String
  sha256 : Option String
deriving DecidableEq

/-- One element of the final `results` list of `search_rag` (utils.py
lines 160-173). -/
structure DocResult where
  document_id : String
  title : Option String
  source_url : Option String
  sha256 : Option String
  avg_distance : ℚ
  chunks : List Chunk
  entities : List Entity
deriving DecidableEq

/-- utils.py lines 147-149: group the fetched entity rows by chunk id,
in row order (`chunk_to_entities[chunk_id].append(...)`). -/
def chunkToEntities (entRows : List EntityRow) (cid : String) : List Entity :=
  (entRows.filter fun er => er.chunk_id = cid).map fun er =>
    { name := er.name, type := er.type }

/-- Step 8 of `search_rag` (utils.py lines 160-173): merge each ranked
document with its metadata (`meta_map.get(doc_id, {})`, missing fields
become `None`) and its entity list (`entities_map.get(doc_id, [])`,
defaulting to the empty list). -/
def buildResults (metaMap : String → Option DocMeta)
    (entitiesOf : String → List Chunk → List Entity)
    (docs_list : List DocAgg) : List DocResult :=
  docs_list.map fun d =>
    { document_id := d.document_id
      title := (metaMap d.document_id).bind DocMeta.title
      source_url := (metaMap d.document_id).bind DocMeta.source_url
      sha256 := (metaMap d.document_id).bind DocMeta.sha256
      avg_distance := d.avg_distance
      chunks := d.chunks
      entities := entitiesOf d.document_id d.chunks }

/-- The core of `search_rag` in utils.py (lines 92-175), with the
collaborators injected: `rows` is the hit pool fetched in step 2,
`entityLookup` the `chunk_entity JOIN entity` query of step 7 (it can
raise, i.e. return `.error`), `metaMap` the `document` metadata query of
step 6.  An empty pool returns `{"results": []}` (lines 93-94).  An
exception from the entity query propagates (there is no handler around
step 7). -/
def search_rag_core
    (entityLookup : List String → Except Fault (List EntityRow))
    (metaMap : String → Option DocMeta)
    (top_docs top_chunks : Nat) (include_entities : Bool)
    (rows : List Row) : Except Fault (List DocResult) :=
  if rows.isEmpty then .ok []
  else
    let docs_list := aggregate top_chunks top_docs rows
    let sel_chunk_ids := docs_list.flatMap fun d => d.chunks.map Chunk.chunk_id
    let entRowsE : Except Fault (List EntityRow) :=
      if include_entities && !sel_chunk_ids.isEmpty then entityLookup sel_chunk_ids
      else .ok []
    match entRowsE with
    | .error f => .error f
    | .ok entRows =>
        .ok (buildResults metaMap
          (fun _ cs => entitiesForDoc (chunkToEntities entRows) cs) docs_list)

/-- The `/search_rag` endpoint variant in main.py (lines 235-371).  Its
aggregation pipeline (steps 3-8) is the same as utils.py, but on an empty
hit pool it raises `HTTPException(status_code=404, detail="No chunks found
in corpus")` (main.py lines 275-277) instead of returning empty results. -/
def search_rag_endpoint
    (entityLookup : List String → Except Fault (List EntityRow))
    (metaMap : String → Option DocMeta)
    (top_docs top_chunks : Nat) (include_entities : Bool)
    (rows : List Row) : Except Fault (List DocResult) :=
  if rows.isEmpty then .error (.http 404 "No chunks found in corpus")
  else search_rag_core entityLookup metaMap top_docs top_chunks include_entities rows

/-- The `rag = rag_search_func(...)` phase of `search_rag_plus_graph`
(main.py lines 392-406): any exception raised by `search_rag` is caught
and replaced by `{"results": []}`. -/
def ragPhase
    (entityLookup : List String → Except Fault (List EntityRow))
    (metaMap : String → Option DocMeta)
    (top_docs : Nat) (rows : List Row) : List DocResult :=
  match search_rag_core entityLookup metaMap top_docs 3 true rows with
  | .error _ => []
  | .ok rs => rs

/-- One flattened hit of `search_rag_plus_graph` (main.py lines 415-424):
`score = -c.get("distance", 0.0)`. -/
structure RankedHit where
  text : String
  score : ℚ
  sha256 : Option String
  ord : Int
  chunk_id : String
  title : Option String
  document_id : String
deriving DecidableEq

/-- main.py lines 416-424: the hit dict emitted for chunk `c` of document
result `d`. -/
def mkHit (d : DocResult) (c : Chunk) : RankedHit :=
  { text := c.text
    score := -c.distance
    sha256 := d.sha256
    ord := c.ord
    chunk_id := c.chunk_id
    title := d.title
    document_id := d.document_id }

/-- Comparison used by `sorted(hits, key=lambda h: h["score"], reverse=True)`:
`a` may stay before `b` iff `a.score ≥ b.score` (stable descending sort). -/
def hitGe (a b : RankedHit) : Bool := b.score ≤ a.score

/-- The hit-flattening step of `search_rag_plus_graph` (main.py lines
408-427): one hit per chunk of every document, sorted descending by score,
truncated to `top_k * 3`. -/
def flattenHits (results : List DocResult) (top_k : Nat) : List RankedHit :=
  (sortBy hitGe (results.flatMap fun d => d.chunks.map (mkHit d))).take (top_k * 3)

/-- An ordinal value as found in a raw chunk-key dict: either coercible by
Python's `int(...)` to an integer, or a value on which `int(...)` raises
`ValueError`/`TypeError`. -/
inductive OrdField where
  | intLike (n : Int)
  | notCoercible
deriving DecidableEq

/-- A raw chunk-key dict handed to `build_graph_for_chunks`: the `sha256`
and `ord` fields may be absent/`None` (modelled `none`); an empty `sha256`
string is falsy for the `key.get("sha256")` test. -/
structure RawKey where
  sha256 : Option String
  ord : Option OrdField
deriving DecidableEq

/-- A validated chunk key `{"sha256": str(...), "ord": int(...)}`. -/
structure ChunkKey where
  sha256 : String
  ord : Int
deriving DecidableEq

/-- utils.py lines 275-284: one raw key passes validation iff
`key.get("sha256")` is truthy (present and non-empty) and `key.get("ord")`
is present, not `None`, and `int(...)`-coercible. -/
def validateKey (k : RawKey) : Option ChunkKey :=
  match k.sha256, k.ord with
  | some s, some o =>
      if s = "" then none
      else match o with
        | .intLike n => some { sha256 := s, ord := n }
        | .notCoercible => none
  | _, _ => none

/-- utils.py lines 273-284: the `valid_keys` list, in input order, with
invalid keys skipped. -/
def validKeys (keys : List RawKey) : List ChunkKey :=
  keys.filterMap validateKey

/-- A node map as produced by `_GRAPH_CYPHER`, as seen by the Python side
through `n.get(...)` (absent fields read as `None`). -/
structure NodePayload where
  id : Option String
  label : Option String
  type : Option String
  fullTitle : Option String := none
  sourceUrl : Option String := none
  ord : Option Int := none
  preview : Option String := none
  sha256 : Option String := none
  entityType : Option String := none
  name : Option String := none
deriving DecidableEq

/-- An edge map as produced by `_GRAPH_CYPHER` (`s`, `t`, `label`). -/
structure EdgePayload where
  s : Option String
  t : Option String
  label : Option String
deriving DecidableEq

/-- The single record returned by the Cypher query: `docs`, `chunks`,
`entities`, `docChunkEdges`, `entChunkEdges`. -/
structure GraphRec where
  docs : List NodePayload
  chunks : List NodePayload
  ents : List NodePayload
  dce : List EdgePayload
  ece : List EdgePayload
deriving DecidableEq

/-- The `node_data` dict built in utils.py lines 312-328: `id`, `label`,
`type` always, plus kind-specific metadata fields. -/
structure GraphNodeData where
  id : String
  label : String
  type : String
  fullTitle : Option String := none
  sourceUrl : Option String := none
  ord : Option Int := none
  preview : Option String := none
  sha256 : Option String := none
  entityType : Option String := none
  name : Option String := none
deriving DecidableEq

/-- The edge `data` dict built in utils.py lines 340-347. -/
structure GraphEdgeData where
  id : String
  source : String
  target : String
  label : String
deriving DecidableEq

/-- The `elements` dict `{"nodes": [...], "edges": [...]}`. -/
structure GraphElements where
  nodes : List GraphNodeData
  edges : List GraphEdgeData
deriving DecidableEq

/-- utils.py lines 312-328: the node data built from payload `n` whose
truthy id is `nid`. -/
def nodeDataOfPayload (n : NodePayload) (nid : String) : GraphNodeData :=
  if n.type = some "doc" then
    { id := nid, label := n.label.getD "", type := (n.type).getD ""
      fullTitle := n.fullTitle, sourceUrl := n.sourceUrl }
  else if n.type = some "chunk" then
    { id := nid, label := n.label.getD "", type := (n.type).getD ""
      ord := n.ord, preview := n.preview, sha256 := n.sha256 }
  else if n.type = some "entity" then
    { id := nid, label := n.label.getD "", type := (n.type).getD ""
      entityType := n.entityType, name := n.name }
  else
    { id := nid, label := n.label.getD "", type := (n.type).getD "" }

/-- One iteration of the node loop (utils.py lines 309-331): state is
`(elements["nodes"], added_nodes)`; a payload is added iff its id is
truthy and not yet in `added_nodes`. -/
def addNodeStep (st : List GraphNodeData × List String) (n : NodePayload) :
    List GraphNodeData × List String :=
  match n.id with
  | none => st
  | some nid =>
      if nid ≠ "" ∧ nid ∉ st.2 then (st.1 ++ [nodeDataOfPayload n nid], nid :: st.2)
      else st

/-- The edge id string of utils.py line 338:
`f"e:{source}->{target}:{e.get('label', '')}"`. -/
def edgeId (source target label : String) : String :=
  "e:" ++ source ++ "->" ++ target ++ ":" ++ label

/-- One iteration of the edge loop (utils.py lines 334-348): state is
`(elements["edges"], added_edges)`; an edge is added iff both endpoints
are truthy and its id is not yet in `added_edges`. -/
def addEdgeStep (st : List GraphEdgeData × List String) (e : EdgePayload) :
    List GraphEdgeData × List String :=
  match e.s, e.t with
  | some source, some target =>
      if source ≠ "" ∧ target ≠ "" then
        let eid := edgeId source target (e.label.getD "")
        if eid ∉ st.2 then
          (st.1 ++ [{ id := eid, source := source, target := target,
                      label := e.label.getD "" }], eid :: st.2)
        else st
      else st
  | _, _ => st

/-- utils.py lines 308-348: dedup-accumulate all node payloads
(`docs + chunks + ents`) and all edge payloads (`dce + ece`) of the
collaborator record into `elements`. -/
def processRec (gr : GraphRec) : GraphElements :=
  { nodes := ((gr.docs ++ gr.chunks ++ gr.ents).foldl addNodeStep ([], [])).1
    edges := ((gr.dce ++ gr.ece).foldl addEdgeStep ([], [])).1 }

/-- `build_graph_for_chunks` (utils.py lines 249-356) with the Neo4j
session injected as `graphSource`: validate keys; with no valid key return
the empty `elements` without consulting `graphSource`; a collaborator
exception is logged and re-raised (lines 352-354); a `None` record (line
298) returns the empty `elements`. -/
def build_graph_for_chunks
    (graphSource : List ChunkKey → Except Fault (Option GraphRec))
    (chunk_keys : List RawKey) : Except Fault GraphElements :=
  let valid_keys := validKeys chunk_keys
  if valid_keys.isEmpty then .ok { nodes := [], edges := [] }
  else
    match graphSource valid_keys with
    | .error f => .error f
    | .ok none => .ok { nodes := [], edges := [] }
    | .ok (some gr) => .ok (processRec gr)

/-- The graph phase of `search_rag_plus_graph` (main.py lines 456-467):
an exception from `build_graph_for_chunks` is caught by the endpoint and
replaced by the empty graph. -/
def graphPhase
    (graphSource : List ChunkKey → Except Fault (Option GraphRec))
    (keys : List RawKey) : GraphElements :=
  match build_graph_for_chunks graphSource keys with
  | .error _ => { nodes := [], edges := [] }
  | .ok g => g

/-- Cypher `substring(s, 0, n)`: the first `n` characters of `s`. -/
def strTake (s : String) (n : Nat) : String := ⟨s.data.take n⟩

/-- Cypher label preview: `substring(s,0,n) + CASE WHEN size(s) > n THEN
'...' ELSE '' END` (utils.py lines 203 and 207). -/
def previewStr (s : String) (n : Nat) : String :=
  strTake s n ++ (if n < s.data.length then "..." else "")

/-- An `Entity` node in the Neo4j store, as read by `_GRAPH_CYPHER`
(`elementId(x)`, `x.name`, `x.type` nullable). -/
structure StoreEntity where
  elementId : String
  name : String
  type : Option String
deriving DecidableEq

/-- A `Chunk` node in the Neo4j store with its `MENTIONS` entities. -/
structure StoreChunk where
  ord : Int
  text : Option String
  ents : List StoreEntity
deriving DecidableEq

/-- A `Document` node in the Neo4j store with its `HAS_CHUNK` chunks. -/
structure StoreDoc where
  sha256 : String
  title : Option String
  source_url : Option String
  chunks : List StoreChunk
deriving DecidableEq

/-- The chunk node id of `_GRAPH_CYPHER` (utils.py line 202):
`'chunk:' + sha256 + ':' + toString(ord)`. -/
def chunkNodeId (sha : String) (o : Int) : String :=
  "chunk:" ++ sha ++ ":" ++ toString o

/-- The document node id of `_GRAPH_CYPHER` (utils.py line 194):
`'doc:' + sha256`. -/
def docNodeId (sha : String) : String := "doc:" ++ sha

/-- The entity node id of `_GRAPH_CYPHER` (utils.py line 214):
`'entity:' + elementId(x)`. -/
def entityNodeId (eid : String) : String := "entity:" ++ eid

/-- The document node map built by `_GRAPH_CYPHER` (utils.py lines
193-200). -/
def docPayload (d : StoreDoc) : NodePayload :=
  { id := some (docNodeId d.sha256)
    label := some (d.title.getD "(doc)")
    type := some "doc"
    sha256 := some d.sha256
    fullTitle := d.title
    sourceUrl := d.source_url }

/-- The chunk node map built by `_GRAPH_CYPHER` (utils.py lines 201-208). -/
def chunkPayload (d : StoreDoc) (c : StoreChunk) : NodePayload :=
  { id := some (chunkNodeId d.sha256 c.ord)
    label := some (previewStr (c.text.getD "") 80)
    type := some "chunk"
    sha256 := some d.sha256
    ord := some c.ord
    preview := some (previewStr (c.text.getD "") 200) }

/-- The entity node map built by `_GRAPH_CYPHER` (utils.py lines 212-219). -/
def entPayload (e : StoreEntity) : NodePayload :=
  { id := some (entityNodeId e.elementId)
    label := some (e.name ++ " (" ++ e.type.getD "unknown" ++ ")")
    type := some "entity"
    entityType := some (e.type.getD "unknown")
    name := some e.name }

/-- The `HAS_CHUNK` edge map built by `_GRAPH_CYPHER` (utils.py lines
224-228). -/
def dcEdgePayload (d : StoreDoc) (c : StoreChunk) : EdgePayload :=
  { s := some (docNodeId d.sha256)
    t := some (chunkNodeId d.sha256 c.ord)
    label := some "HAS_CHUNK" }

/-- The `MENTIONS` edge map built by `_GRAPH_CYPHER` (utils.py lines
229-239). -/
def ceEdgePayload (d : StoreDoc) (c : StoreChunk) (e : StoreEntity) : EdgePayload :=
  { s := some (chunkNodeId d.sha256 c.ord)
    t := some (entityNodeId e.elementId)
    label := some "MENTIONS" }

/-- Cypher `collect(DISTINCT ...)` / `apoc.coll.toSet`: keep the first
occurrence of each element. -/
def dedupFirst [DecidableEq α] (l : List α) : List α :=
  l.foldl (fun acc a => if a ∈ acc then acc else acc ++ [a]) []

/-- The match rows of `_GRAPH_CYPHER` (utils.py lines 186-189): `UNWIND`
over the keys, `MATCH` document by `sha256` and chunk by `ord`, and per
row the chunk's distinct entities capped at `maxEntPerChunk`. -/
def cypherRows (store : List StoreDoc) (keys : List ChunkKey) (maxEnt : Nat) :
    List (StoreDoc × StoreChunk × List StoreEntity) :=
  keys.flatMap fun k =>
    (store.filter fun d => d.sha256 = k.sha256).flatMap fun d =>
      (d.chunks.filter fun c => c.ord = k.ord).map fun c =>
        (d, c, (dedupFirst c.ents).take maxEnt)

/-- The record returned by `_GRAPH_CYPHER` (utils.py lines 191-246):
distinct doc/chunk node maps, entity node maps via `apoc.coll.toSet`, and
the two deduplicated edge collections. -/
def cypherRespond (store : List StoreDoc) (keys : List ChunkKey)
    (maxEnt : Nat) : Option GraphRec :=
  let rows := cypherRows store keys maxEnt
  some
    { docs := dedupFirst (rows.map fun t => docPayload t.1)
      chunks := dedupFirst (rows.map fun t => chunkPayload t.1 t.2.1)
      ents := dedupFirst (rows.flatMap fun t => t.2.2.map entPayload)
      dce := dedupFirst (rows.map fun t => dcEdgePayload t.1 t.2.1)
      ece := dedupFirst (rows.flatMap fun t => t.2.2.map (ceEdgePayload t.1 t.2.1)) }

/-- `build_graph_for_chunks` run against the modelled Cypher collaborator
over a concrete Neo4j store. -/
def assembleGraph (store : List StoreDoc) (keys : List RawKey)
    (maxEnt : Nat) : Except Fault GraphElements :=
  build_graph_for_chunks (fun vks => .ok (cypherRespond store vks maxEnt)) keys

/-- Scenario A hit pool: doc1 at distances 0.1, 0.2, 0.5 and doc2 at 0.3,
0.4, in the ascending-distance order the vector store returns them. -/
def scenarioARows : List Row :=
  [ { chunk_id := "c11", document_id := "doc1", ord := some 0, text := "a1", distance := 1/10 }
  , { chunk_id := "c12", document_id := "doc1", ord := some 1, text := "a2", distance := 2/10 }
  , { chunk_id := "c21", document_id := "doc2", ord := some 0, text := "b1", distance := 3/10 }
  , { chunk_id := "c22", document_id := "doc2", ord := some 1, text := "b2", distance := 4/10 }
  , { chunk_id := "c13", document_id := "doc1", ord := some 2, text := "a3", distance := 5/10 } ]

/-- Scenario C chunk and entity linkage: one selected chunk whose lookup
returns `[("Acme","ORG"), ("Acme","ORG"), ("Bob","PERSON")]`. -/
def scenarioCChunk : Chunk :=
  { chunk_id := "cC", ord := 0, text := "t", distance := 0 }

/-- Scenario C chunk-to-entities mapping. -/
def scenarioCLinkage (cid : String) : List Entity :=
  if cid = "cC" then
    [ { name := "Acme", type := "ORG" }
    , { name := "Acme", type := "ORG" }
    , { name := "Bob", type := "PERSON" } ]
  else []

/-- Scenario E document results: 3 documents, each with 3 chunks at
distances 0.1, 0.2, 0.3. -/
def scenarioEResults : List DocResult :=
  [ { document_id := "d1", title := none, source_url := none, sha256 := some "h1"
    , avg_distance := 2/10
    , chunks :=
        [ { chunk_id := "d1c1", ord := 0, text := "x", distance := 1/10 }
        , { chunk_id := "d1c2", ord := 1, text := "x", distance := 2/10 }
        , { chunk_id := "d1c3", ord := 2, text := "x", distance := 3/10 } ]
    , entities := [] }
  , { document_id := "d2", title := none, source_url := none, sha256 := some "h2"
    , avg_distance := 2/10
    , chunks :=
        [ { chunk_id := "d2c1", ord := 0, text := "y", distance := 1/10 }
        , { chunk_id := "d2c2", ord := 1, text := "y", distance := 2/10 }
        , { chunk_id := "d2c3", ord := 2, text := "y", distance := 3/10 } ]
    , entities := [] }
  , { document_id := "d3", title := none, source_url := none, sha256 := some "h3"
    , avg_distance := 2/10
    , chunks :=
        [ { chunk_id := "d3c1", ord := 0, text := "z", distance := 1/10 }
        , { chunk_id := "d3c2", ord := 1, text := "z", distance := 2/10 }
        , { chunk_id := "d3c3", ord := 2, text := "z", distance := 3/10 } ]
    , entities := [] } ]

/-- Scenario D store: one document with content hash `h` holding chunks of
ordinals 0 and 1. -/
def scenarioDStore : List StoreDoc :=
  [ { sha256 := "h", title := some "Doc", source_url := none
    , chunks :=
        [ { ord := 0, text := some "alpha", ents := [] }
        , { ord := 1, text := some "beta", ents := [] } ] } ]

/-- Scenario D keys: two keys with the same content hash and ordinals 0
and 1. -/
def scenarioDKeys : List RawKey :=
  [ { sha256 := some "h", ord := some (.intLike 0) }
  , { sha256 := some "h", ord := some (.intLike 1) } ]

/-- A one-row hit pool used to exercise failure paths. -/
def oneRow : List Row :=
  [ { chunk_id := "c1", document_id := "d1", ord := some 0, text := "t", distance := 1 } ]

/-- An entity-linkage collaborator that is unreachable: every call raises. -/
def downLookup : List String → Except Fault (List EntityRow) :=
  fun _ => .error (.collaborator "entity lookup unreachable")

/-- An entity-linkage collaborator that returns zero rows. -/
def emptyLookup : List String → Except Fault (List EntityRow) :=
  fun _ => .ok []

/-- A metadata lookup with no rows at all. -/
def noMeta : String → Option DocMeta := fun _ => none

/-- A single ranked document, used to exercise the metadata-merge step. -/
def oneDocAgg : DocAgg :=
  { document_id := "d1", avg_distance := 1
    chunks := [{ chunk_id := "c1", ord := 0, text := "t", distance := 1 }] }

/-- A raw chunk key whose `sha256` is the empty string: falsy, hence
invalid. -/
def invalidKey : RawKey := { sha256 := some "", ord := some (.intLike 0) }

/-- A graph collaborator that is entirely unavailable: every call raises. -/
def downGraphSource : List ChunkKey → Except Fault (Option GraphRec) :=
  fun _ => .error (.collaborator "neo4j unavailable")

/-- A collaborator record holding the same `HAS_CHUNK` edge payload
twice. -/
def dupEdgeRec : GraphRec :=
  { docs := [], chunks := [], ents := []
    dce := [ { s := some "a", t := some "b", label := some "HAS_CHUNK" }
           , { s := some "a", t := some "b", label := some "HAS_CHUNK" } ]
    ece := [] }

/-- The Scenario D document. -/
def scenarioDDoc : StoreDoc :=
  { sha256 := "h", title := some "Doc", source_url := none, chunks := [] }

/-- The Scenario D chunk of ordinal 0. -/
def scenarioDChunk : StoreChunk := { ord := 0, text := some "alpha", ents := [] }

/-- Inserting with `insertBy` permutes: the result is the element consed on. -/
theorem insertBy_perm (le : α → α → Bool) (a : α) :
    ∀ l : List α, (insertBy le a l).Perm (a :: l) := by
  intro l
  induction l with
  | nil => exact List.Perm.refl _
  | cons b bs ih =>
    rw [insertBy]
    by_cases h : le a b
    · rw [if_pos h]
    · rw [if_neg h]
      exact (ih.cons b).trans (List.Perm.swap a b bs)

/-- `sortBy` permutes its input. -/
theorem sortBy_perm (le : α → α → Bool) :
    ∀ l : List α, (sortBy le l).Perm l := by
  intro l
  induction l with
  | nil => exact List.Perm.refl _
  | cons a as ih =>
    rw [sortBy]
    exact (insertBy_perm le a (sortBy le as)).trans (ih.cons a)

/-- `insertBy` preserves sortedness for a total transitive comparison. -/
theorem pairwise_insertBy {le : α → α → Bool}
    (htot : ∀ a b, le a b = true ∨ le b a = true)
    (htrans : ∀ a b c, le a b = true → le b c = true → le a c = true)
    (a : α) : ∀ {l : List α}, l.Pairwise (fun x y => le x y = true) →
      (insertBy le a l).Pairwise (fun x y => le x y = true) := by
  intro l
  induction l with
  | nil =>
    intro _
    exact List.Pairwise.cons (by intro y hy; cases hy) List.Pairwise.nil
  | cons b bs ih =>
    intro h
    rw [insertBy]
    by_cases hab : le a b
    · rw [if_pos hab]
      refine List.Pairwise.cons ?_ h
      intro y hy
      rcases List.mem_cons.mp hy with rfl | hy'
      · exact hab
      · exact htrans a b y hab (List.rel_of_pairwise_cons h hy')
    · rw [if_neg hab]
      have hba : le b a = true := (htot a b).resolve_left hab
      refine List.Pairwise.cons ?_ (ih (List.Pairwise.of_cons h))
      intro y hy
      rcases List.mem_cons.mp ((insertBy_perm le a bs).mem_iff.mp hy) with rfl | hy'
      · exact hba
      · exact List.rel_of_pairwise_cons h hy'

/-- `sortBy` sorts, for a total transitive comparison. -/
theorem pairwise_sortBy {le : α → α → Bool}
    (htot : ∀ a b, le a b = true ∨ le b a = true)
    (htrans : ∀ a b c, le a b = true → le b c = true → le a c = true)
    (l : List α) : (sortBy le l).Pairwise (fun x y => le x y = true) := by
  induction l with
  | nil => exact List.Pairwise.nil
  | cons a as ih =>
    rw [sortBy]
    exact pairwise_insertBy htot htrans a ih

/-- In a sorted list, everything kept by `take n` is `le` everything
dropped by `drop n`. -/
theorem sorted_take_le_drop {le : α → α → Bool} {l : List α}
    (h : l.Pairwise (fun x y => le x y = true)) (n : Nat) :
    ∀ x ∈ l.take n, ∀ y ∈ l.drop n, le x y = true := by
  have h2 : (l.take n ++ l.drop n).Pairwise (fun x y => le x y = true) := by
    rw [List.take_append_drop]; exact h
  exact (List.pairwise_append.mp h2).2.2

/-- Appending a chunk targets exactly its own group. -/
theorem lookupGroup_insertChunk_self (acc : List (String × List Chunk))
    (d : String) (c : Chunk) :
    lookupGroup (insertChunk acc d c) d = lookupGroup acc d ++ [c] := by
  induction acc with
  | nil => simp [insertChunk, lookupGroup]
  | cons p rest ih =>
    rw [insertChunk]
    by_cases h : p.1 = d
    · rw [if_pos h]
      simp [lookupGroup, h]
    · rw [if_neg h]
      simp [lookupGroup, h, ih]

/-- Appending a chunk leaves every other group unchanged. -/
theorem lookupGroup_insertChunk_ne (acc : List (String × List Chunk))
    {d d' : String} (c : Chunk) (h : d' ≠ d) :
    lookupGroup (insertChunk acc d c) d' = lookupGroup acc d' := by
  have hdd : ¬ d = d' := fun hh => h hh.symm
  induction acc with
  | nil => simp [insertChunk, lookupGroup, hdd]
  | cons p rest ih =>
    rw [insertChunk]
    by_cases hp : p.1 = d
    · rw [if_pos hp]
      simp only [lookupGroup, hp, if_neg hdd]
    · rw [if_neg hp]
      by_cases hp' : p.1 = d'
      · simp only [lookupGroup, if_pos hp']
      · simp only [lookupGroup, if_neg hp', ih]

/-- The keys after one insertion: unchanged if the key exists, appended
otherwise. -/
theorem map_fst_insertChunk (acc : List (String × List Chunk))
    (d : String) (c : Chunk) :
    (insertChunk acc d c).map Prod.fst =
      if d ∈ acc.map Prod.fst then acc.map Prod.fst
      else acc.map Prod.fst ++ [d] := by
  induction acc with
  | nil => simp [insertChunk]
  | cons p rest ih =>
    rw [insertChunk]
    by_cases h : p.1 = d
    · rw [if_pos h]
      simp [h]
    · rw [if_neg h, List.map_cons, ih, List.map_cons]
      by_cases hd : d ∈ rest.map Prod.fst
      · rw [if_pos hd, if_pos (List.mem_cons.mpr (Or.inr hd))]
      · rw [if_neg hd, if_neg ?_]
        · simp
        · intro hmem
          rcases List.mem_cons.mp hmem with h1 | h2
          · exact h h1.symm
          · exact hd h2

/-- Insertion preserves distinctness of group keys. -/
theorem nodup_keys_insertChunk {acc : List (String × List Chunk)}
    (h : (acc.map Prod.fst).Nodup) (d : String) (c : Chunk) :
    ((insertChunk acc d c).map Prod.fst).Nodup := by
  rw [map_fst_insertChunk]
  by_cases hd : d ∈ acc.map Prod.fst
  · rw [if_pos hd]; exact h
  · rw [if_neg hd]
    rw [List.nodup_append]
    exact ⟨h, List.nodup_singleton d,
      fun x hx hx' => hd (by rwa [List.mem_singleton.mp hx'] at hx)⟩

/-- Insertion never removes a group key. -/
theorem mem_keys_insertChunk_of_mem {acc : List (String × List Chunk)}
    {k : String} (h : k ∈ acc.map Prod.fst) (d : String) (c : Chunk) :
    k ∈ (insertChunk acc d c).map Prod.fst := by
  rw [map_fst_insertChunk]
  by_cases hd : d ∈ acc.map Prod.fst
  · rwa [if_pos hd]
  · rw [if_neg hd]; exact List.mem_append_left _ h

/-- After inserting a chunk for document `d`, the key `d` is present. -/
theorem self_mem_keys_insertChunk (acc : List (String × List Chunk))
    (d : String) (c : Chunk) : d ∈ (insertChunk acc d c).map Prod.fst := by
  rw [map_fst_insertChunk]
  by_cases hd : d ∈ acc.map Prod.fst
  · rwa [if_pos hd]
  · rw [if_neg hd]; exact List.mem_append_right _ (List.mem_singleton.mpr rfl)

/-- Insertion keeps all groups non-empty. -/
theorem groups_ne_nil_insertChunk {acc : List (String × List Chunk)}
    (h : ∀ p ∈ acc, p.2 ≠ []) (d : String) (c : Chunk) :
    ∀ p ∈ insertChunk acc d c, p.2 ≠ [] := by
  induction acc with
  | nil =>
    intro p hp
    rw [insertChunk] at hp
    rcases List.mem_singleton.mp hp with rfl
    simp
  | cons q rest ih =>
    intro p hp
    rw [insertChunk] at hp
    by_cases hq : q.1 = d
    · rw [if_pos hq] at hp
      rcases List.mem_cons.mp hp with rfl | hp'
      · simp
      · exact h p (List.mem_cons.mpr (Or.inr hp'))
    · rw [if_neg hq] at hp
      rcases List.mem_cons.mp hp with rfl | hp'
      · exact h p (List.mem_cons.mpr (Or.inl rfl))
      · exact ih (fun r hr => h r (List.mem_cons.mpr (Or.inr hr))) p hp'

/-- The grouping fold, characterized per key: the group of `d` is the
starting group extended by all chunks of rows with `document_id = d`, in
row order. -/
theorem lookupGroup_foldl (rows : List Row) :
    ∀ (acc : List (String × List Chunk)) (d : String),
      lookupGroup (rows.foldl (fun a r => insertChunk a r.document_id (chunkOfRow r)) acc) d
        = lookupGroup acc d ++ (rows.filter fun r => r.document_id = d).map chunkOfRow := by
  induction rows with
  | nil => intro acc d; simp
  | cons r rows ih =>
    intro acc d
    rw [List.foldl_cons, ih]
    by_cases h : r.document_id = d
    · rw [List.filter_cons_of_pos (by simpa using h), List.map_cons, h,
        lookupGroup_insertChunk_self, List.append_assoc, List.singleton_append]
    · rw [List.filter_cons_of_neg (by simpa using h),
        lookupGroup_insertChunk_ne _ _ (fun hh => h hh.symm)]

/-- The group of `d` in `groupRows rows` is exactly the chunks of the rows
with `document_id = d`, in row order. -/
theorem lookupGroup_groupRows (rows : List Row) (d : String) :
    lookupGroup (groupRows rows) d
      = (rows.filter fun r => r.document_id = d).map chunkOfRow := by
  have h := lookupGroup_foldl rows [] d
  rw [groupRows]
  rw [h]
  rfl

/-- The grouping fold preserves key distinctness. -/
theorem nodup_keys_foldl (rows : List Row) :
    ∀ (acc : List (String × List Chunk)), (acc.map Prod.fst).Nodup →
      ((rows.foldl (fun a r => insertChunk a r.document_id (chunkOfRow r)) acc).map
        Prod.fst).Nodup := by
  induction rows with
  | nil => intro acc h; exact h
  | cons r rows ih =>
    intro acc h
    rw [List.foldl_cons]
    exact ih _ (nodup_keys_insertChunk h _ _)

/-- The document keys of `groupRows` are pairwise distinct: each hit lands
in exactly one group. -/
theorem nodup_keys_groupRows (rows : List Row) :
    ((groupRows rows).map Prod.fst).Nodup :=
  nodup_keys_foldl rows [] List.Pairwise.nil

/-- The grouping fold only grows the key set. -/
theorem mem_keys_foldl_of_mem (rows : List Row) :
    ∀ (acc : List (String × List Chunk)) {k : String}, k ∈ acc.map Prod.fst →
      k ∈ (rows.foldl (fun a r => insertChunk a r.document_id (chunkOfRow r)) acc).map
        Prod.fst := by
  induction rows with
  | nil => intro acc k h; exact h
  | cons r rows ih =>
    intro acc k h
    rw [List.foldl_cons]
    exact ih _ (mem_keys_insertChunk_of_mem h _ _)

/-- Every processed row's document id appears among the keys of the fold. -/
theorem mem_keys_foldl_of_mem_rows (rows : List Row) :
    ∀ (acc : List (String × List Chunk)) {r : Row}, r ∈ rows →
      r.document_id ∈ (rows.foldl (fun a r => insertChunk a r.document_id (chunkOfRow r))
        acc).map Prod.fst := by
  induction rows with
  | nil => intro acc r h; cases h
  | cons r0 rows ih =>
    intro acc r h
    rw [List.foldl_cons]
    rcases List.mem_cons.mp h with rfl | h'
    · exact mem_keys_foldl_of_mem rows _ (self_mem_keys_insertChunk acc _ _)
    · exact ih _ h'

/-- Every row's document id appears among the group keys: no hit is lost. -/
theorem mem_keys_groupRows {rows : List Row} {r : Row} (h : r ∈ rows) :
    r.document_id ∈ (groupRows rows).map Prod.fst :=
  mem_keys_foldl_of_mem_rows rows [] h

/-- The grouping fold keeps all groups non-empty. -/
theorem groups_ne_nil_foldl (rows : List Row) :
    ∀ (acc : List (String × List Chunk)), (∀ p ∈ acc, p.2 ≠ []) →
      ∀ p ∈ rows.foldl (fun a r => insertChunk a r.document_id (chunkOfRow r)) acc,
        p.2 ≠ [] := by
  induction rows with
  | nil => intro acc h; exact h
  | cons r rows ih =>
    intro acc h
    rw [List.foldl_cons]
    exact ih _ (groups_ne_nil_insertChunk h _ _)

/-- Every group of `groupRows` holds at least one chunk. -/
theorem groups_ne_nil_groupRows (rows : List Row) :
    ∀ p ∈ groupRows rows, p.2 ≠ [] :=
  groups_ne_nil_foldl rows [] (by intro p hp; cases hp)

/-- With distinct keys, a pair of the association list is what lookup
returns for its key. -/
theorem eq_lookupGroup_of_mem :
    ∀ {l : List (String × List Chunk)}, (l.map Prod.fst).Nodup →
      ∀ {d : String} {cs : List Chunk}, (d, cs) ∈ l → lookupGroup l d = cs := by
  intro l
  induction l with
  | nil => intro _ d cs h; cases h
  | cons p rest ih =>
    intro hnd d cs h
    rcases List.mem_cons.mp h with rfl | h'
    · rw [lookupGroup, if_pos rfl]
    · have hne : ¬ p.1 = d := by
        intro hp
        have : d ∈ rest.map Prod.fst :=
          List.mem_map.mpr ⟨(d, cs), h', rfl⟩
        rw [List.map_cons] at hnd
        exact (List.rel_of_pairwise_cons hnd this) hp
      rw [lookupGroup, if_neg hne]
      exact ih (List.Pairwise.of_cons (by rwa [List.map_cons] at hnd)) h'

/-- Every pair of `groupRows rows` is exactly the group of its key: its
chunks are the chunks of the rows with that document id, in row order. -/
theorem group_eq_filter {rows : List Row} {p : String × List Chunk}
    (h : p ∈ groupRows rows) :
    p.2 = (rows.filter fun r => r.document_id = p.1).map chunkOfRow := by
  have heq := eq_lookupGroup_of_mem (nodup_keys_groupRows rows)
    (show (p.1, p.2) ∈ groupRows rows from h)
  rw [← heq, lookupGroup_groupRows]

/-- C1: the document aggregation step of `search_rag` groups the hits by
`document_id` so that every hit lands in exactly one group (distinct keys,
each group exactly the hits of its document, every hit's document
present); within each group it keeps the at most `top_chunks` hits of
smallest distance sorted ascending by distance; each document's
`avg_distance` is the arithmetic mean of only the retained chunks'
distances; and the output is sorted ascending by `avg_distance` and
truncated to `top_docs`.  Scenario A: doc1 [0.1,0.2,0.5], doc2 [0.3,0.4]
with `top_chunks=2`, `top_docs=2` gives doc1 (avg 0.15) before doc2
(avg 0.35). -/
theorem C1_document_aggregation
    (rows : List Row) (top_chunks top_docs : Nat)
    (hrows : rows ≠ []) (htc : 1 ≤ top_chunks) (htd : 1 ≤ top_docs) :
    (((groupRows rows).map Prod.fst).Nodup
      ∧ (∀ p ∈ groupRows rows,
          p.2 = (rows.filter fun r => r.document_id = p.1).map chunkOfRow)
      ∧ (∀ r ∈ rows, r.document_id ∈ (groupRows rows).map Prod.fst))
    ∧ (∀ p ∈ groupRows rows,
        (aggDoc top_chunks p.1 p.2).chunks = (sortBy chunkLe p.2).take top_chunks
        ∧ (aggDoc top_chunks p.1 p.2).chunks.length ≤ top_chunks
        ∧ (aggDoc top_chunks p.1 p.2).chunks.Pairwise
            (fun a b => a.distance ≤ b.distance)
        ∧ ((aggDoc top_chunks p.1 p.2).chunks
            ++ (sortBy chunkLe p.2).drop top_chunks).Perm p.2
        ∧ (∀ x ∈ (aggDoc top_chunks p.1 p.2).chunks,
            ∀ y ∈ (sortBy chunkLe p.2).drop top_chunks, x.distance ≤ y.distance)
        ∧ (aggDoc top_chunks p.1 p.2).chunks ≠ []
        ∧ (aggDoc top_chunks p.1 p.2).avg_distance
            = ((aggDoc top_chunks p.1 p.2).chunks.map Chunk.distance).sum
              / ((aggDoc top_chunks p.1 p.2).chunks.length : ℚ))
    ∧ (aggregate top_chunks top_docs rows
        = (sortBy docLe
            ((groupRows rows).map fun p => aggDoc top_chunks p.1 p.2)).take top_docs
      ∧ (aggregate top_chunks top_docs rows).Pairwise
          (fun a b => a.avg_distance ≤ b.avg_distance)
      ∧ (aggregate top_chunks top_docs rows).length ≤ top_docs)
    ∧ ((aggregate 2 2 scenarioARows).map fun d => (d.document_id, d.avg_distance))
        = [("doc1", 3/20), ("doc2", 7/20)] := by
  have htot : ∀ a b : Chunk, chunkLe a b = true ∨ chunkLe b a = true := by
    intro a b
    simp only [chunkLe, decide_eq_true_eq]
    exact le_total a.distance b.distance
  have htrans : ∀ a b c : Chunk,
      chunkLe a b = true → chunkLe b c = true → chunkLe a c = true := by
    intro a b c hab hbc
    simp only [chunkLe, decide_eq_true_eq] at hab hbc ⊢
    exact le_trans hab hbc
  have hdtot : ∀ a b : DocAgg, docLe a b = true ∨ docLe b a = true := by
    intro a b
    simp only [docLe, decide_eq_true_eq]
    exact le_total a.avg_distance b.avg_distance
  have hdtrans : ∀ a b c : DocAgg,
      docLe a b = true → docLe b c = true → docLe a c = true := by
    intro a b c hab hbc
    simp only [docLe, decide_eq_true_eq] at hab hbc ⊢
    exact le_trans hab hbc
  refine ⟨⟨nodup_keys_groupRows rows, fun p hp => group_eq_filter hp,
      fun r hr => mem_keys_groupRows hr⟩, ?_, ⟨rfl, ?_, ?_⟩, ?_⟩
  · intro p hp
    have hs := pairwise_sortBy htot htrans p.2
    have hchunks : (aggDoc top_chunks p.1 p.2).chunks
        = (sortBy chunkLe p.2).take top_chunks := rfl
    refine ⟨rfl, ?_, ?_, ?_, ?_, ?_, rfl⟩
    · rw [hchunks]
      exact List.length_take_le _ _
    · rw [hchunks]
      exact (List.Pairwise.sublist (List.take_sublist _ _) hs).imp
        (fun h => by simpa [chunkLe, decide_eq_true_eq] using h)
    · rw [hchunks, List.take_append_drop]
      exact sortBy_perm chunkLe p.2
    · rw [hchunks]
      intro x hx y hy
      have h := sorted_take_le_drop hs top_chunks x hx y hy
      simpa [chunkLe, decide_eq_true_eq] using h
    · rw [hchunks]
      have hp2 : p.2 ≠ [] := groups_ne_nil_groupRows rows p hp
      have hlen : 0 < (sortBy chunkLe p.2).length := by
        rw [List.Perm.length_eq (sortBy_perm chunkLe p.2)]
        exact List.length_pos.mpr hp2
      have hpos : 0 < ((sortBy chunkLe p.2).take top_chunks).length := by
        rw [List.length_take]
        exact lt_min htc hlen
      exact List.length_pos.mp hpos
  · have hsd := pairwise_sortBy hdtot hdtrans
      ((groupRows rows).map fun p => aggDoc top_chunks p.1 p.2)
    exact (List.Pairwise.sublist (List.take_sublist _ _) hsd).imp
      (fun h => by simpa [docLe, decide_eq_true_eq] using h)
  · exact List.length_take_le _ _
  · norm_num [aggregate, groupRows, scenarioARows, insertChunk, chunkOfRow, sortBy,
      insertBy, chunkLe, docLe, aggDoc]

/-- Witness for C1: the hypotheses hold at Scenario A (`top_chunks = 2`,
`top_docs = 2`), and there the aggregation orders doc1 (avg 0.15) before
doc2 (avg 0.35). -/
theorem C1_document_aggregation_witness :
    scenarioARows ≠ [] ∧
    ((aggregate 2 2 scenarioARows).map fun d => (d.document_id, d.avg_distance))
      = [("doc1", 3/20), ("doc2", 7/20)] :=
  ⟨by decide,
    (C1_document_aggregation scenarioARows 2 2 (by decide) (by decide) (by decide)).2.2.2⟩

/-- The accumulator of the seen-set loop only prepends: the output is the
accumulator followed by the output from the empty accumulator. -/
theorem dedupEntsAux_acc (es : List Entity) :
    ∀ (acc : List Entity) (seen : List (String × String)),
      dedupEntsAux acc seen es = acc ++ dedupEntsAux [] seen es := by
  induction es with
  | nil => intro acc seen; simp [dedupEntsAux]
  | cons e es ih =>
    intro acc seen
    simp only [dedupEntsAux]
    by_cases h : (e.name, e.type) ∈ seen
    · rw [if_pos h, if_pos h, ih acc]
    · rw [if_neg h, if_neg h, ih (acc ++ [e]), List.nil_append, ih [e], List.append_assoc]

/-- An entity equals any entity with its `(name, type)` key. -/
theorem entity_eq_of_key {a b : Entity} (hn : a.name = b.name)
    (ht : a.type = b.type) : a = b := by
  cases a; cases b
  cases hn; cases ht
  rfl

/-- The seen-set loop emits a subsequence of its input stream: order of
first appearance is preserved. -/
theorem dedupEntsAux_sublist (es : List Entity) :
    ∀ seen, (dedupEntsAux [] seen es).Sublist es := by
  induction es with
  | nil => intro seen; simp [dedupEntsAux]
  | cons e es ih =>
    intro seen
    simp only [dedupEntsAux]
    by_cases h : (e.name, e.type) ∈ seen
    · rw [if_pos h]
      exact (ih seen).cons e
    · rw [if_neg h, List.nil_append, dedupEntsAux_acc es [e]]
      exact (ih _).cons₂ e

/-- Every stream entity whose key is unseen appears in the output: no
entity key is lost. -/
theorem mem_dedupEntsAux {es : List Entity} :
    ∀ {seen} {e : Entity}, e ∈ es → (e.name, e.type) ∉ seen →
      e ∈ dedupEntsAux [] seen es := by
  induction es with
  | nil => intro seen e h; cases h
  | cons e0 es ih =>
    intro seen e h hseen
    simp only [dedupEntsAux]
    by_cases h0 : (e0.name, e0.type) ∈ seen
    · rw [if_pos h0]
      rcases List.mem_cons.mp h with rfl | h'
      · exact absurd h0 hseen
      · exact ih h' hseen
    · rw [if_neg h0, List.nil_append, dedupEntsAux_acc es [e0], List.singleton_append]
      rcases List.mem_cons.mp h with rfl | h'
      · exact List.mem_cons.mpr (Or.inl rfl)
      · by_cases hk : (e.name, e.type) = (e0.name, e0.type)
        · have : e = e0 :=
            entity_eq_of_key (congrArg Prod.fst hk) (congrArg Prod.snd hk)
          exact List.mem_cons.mpr (Or.inl this)
        · refine List.mem_cons.mpr (Or.inr (ih h' ?_))
          intro hmem
          rcases List.mem_cons.mp hmem with h1 | h2
          · exact hk h1
          · exact hseen h2

/-- The output of the seen-set loop avoids the seen keys and holds no two
entities with the same `(name, type)` key. -/
theorem pairwise_dedupEntsAux (es : List Entity) :
    ∀ seen, (∀ e ∈ dedupEntsAux [] seen es, (e.name, e.type) ∉ seen)
      ∧ (dedupEntsAux [] seen es).Pairwise
          (fun a b => ¬(a.name = b.name ∧ a.type = b.type)) := by
  induction es with
  | nil => intro seen; simp [dedupEntsAux]
  | cons e0 es ih =>
    intro seen
    simp only [dedupEntsAux]
    by_cases h0 : (e0.name, e0.type) ∈ seen
    · rw [if_pos h0]
      exact ih seen
    · rw [if_neg h0, List.nil_append, dedupEntsAux_acc es [e0], List.singleton_append]
      obtain ⟨havoid, hpw⟩ := ih ((e0.name, e0.type) :: seen)
      constructor
      · intro e he
        rcases List.mem_cons.mp he with rfl | h'
        · exact h0
        · intro hmem
          exact havoid e h' (List.mem_cons.mpr (Or.inr hmem))
      · refine List.Pairwise.cons ?_ hpw
        intro b hb hkey
        have hb' := havoid b hb
        exact hb' (List.mem_cons.mpr (Or.inl (by rw [← hkey.1, ← hkey.2])))

/-- C3: per-document entity enrichment deduplicates by `(name, type)`:
no two entries of a document's entity list share a `(name, type)` pair;
the list is a subsequence of the entity stream obtained by walking the
selected chunks in rank order (order of first appearance); every streamed
entity still appears; a document with no linked entity gets the empty
list; and Scenario C (entities `[("Acme","ORG"), ("Acme","ORG"),
("Bob","PERSON")]` on one chunk) yields exactly 2 entries. -/
theorem C3_entity_dedup (m : String → List Entity) (chunks : List Chunk) :
    (entitiesForDoc m chunks).Pairwise
        (fun a b => ¬(a.name = b.name ∧ a.type = b.type))
    ∧ (entitiesForDoc m chunks).Sublist (chunks.flatMap fun c => m c.chunk_id)
    ∧ (∀ e ∈ chunks.flatMap fun c => m c.chunk_id, e ∈ entitiesForDoc m chunks)
    ∧ ((chunks.flatMap fun c => m c.chunk_id) = [] → entitiesForDoc m chunks = [])
    ∧ entitiesForDoc scenarioCLinkage [scenarioCChunk]
        = [{ name := "Acme", type := "ORG" }, { name := "Bob", type := "PERSON" }] := by
  refine ⟨(pairwise_dedupEntsAux _ []).2, dedupEntsAux_sublist _ [], ?_, ?_, by decide⟩
  · intro e he
    exact mem_dedupEntsAux he (by intro h; cases h)
  · intro h
    rw [entitiesForDoc, h]
    rfl

/-- Witness for C3: at Scenario C the stream is non-empty and the enriched
entity list is exactly the two deduplicated entries. -/
theorem C3_entity_dedup_witness :
    entitiesForDoc scenarioCLinkage [scenarioCChunk]
      = [{ name := "Acme", type := "ORG" }, { name := "Bob", type := "PERSON" }] :=
  (C3_entity_dedup scenarioCLinkage [scenarioCChunk]).2.2.2.2

/-- C2 (amended): for the empty hit pool, `search_rag` in utils.py returns
the structured empty-result outcome (`results = []`) without a fault, for
every configuration; the `/search_rag` endpoint in main.py instead raises
`HTTPException(404, "No chunks found in corpus")`. -/
theorem C2_empty_pool_amended :
    (∀ (entityLookup : List String → Except Fault (List EntityRow))
       (metaMap : String → Option DocMeta)
       (top_docs top_chunks : Nat) (include_entities : Bool),
        search_rag_core entityLookup metaMap top_docs top_chunks include_entities []
          = .ok [])
    ∧ (∀ (entityLookup : List String → Except Fault (List EntityRow))
         (metaMap : String → Option DocMeta)
         (top_docs top_chunks : Nat) (include_entities : Bool),
        search_rag_endpoint entityLookup metaMap top_docs top_chunks include_entities []
          = .error (.http 404 "No chunks found in corpus")) :=
  ⟨fun _ _ _ _ _ => rfl, fun _ _ _ _ _ => rfl⟩

/-- C2 counterexample: at the empty hit pool, the `/search_rag` endpoint of
main.py signals a fault (HTTP 404) instead of returning an empty result
list, already in the default configuration. -/
theorem C2_empty_pool_counterexample :
    search_rag_endpoint emptyLookup noMeta 5 3 true []
      = .error (.http 404 "No chunks found in corpus") := rfl

/-- A non-empty hit pool yields at least one group. -/
theorem groupRows_ne_nil {rows : List Row} (h : rows ≠ []) :
    groupRows rows ≠ [] := by
  obtain ⟨r, hr⟩ := List.exists_mem_of_ne_nil rows h
  intro hg
  have hm := mem_keys_groupRows hr
  rw [hg] at hm
  cases hm

/-- With a non-empty pool and `top_docs ≥ 1`, the aggregation returns at
least one document. -/
theorem aggregate_ne_nil {rows : List Row} {tc td : Nat} (h : rows ≠ [])
    (htd : 1 ≤ td) : aggregate tc td rows ≠ [] := by
  have hlen :
      0 < (sortBy docLe ((groupRows rows).map fun p => aggDoc tc p.1 p.2)).length := by
    rw [(sortBy_perm _ _).length_eq, List.length_map]
    exact List.length_pos.mpr (groupRows_ne_nil h)
  have hpos :
      0 < ((sortBy docLe
        ((groupRows rows).map fun p => aggDoc tc p.1 p.2)).take td).length := by
    rw [List.length_take]
    exact lt_min htd hlen
  exact List.length_pos.mp hpos

/-- With a non-empty chunk group and `top_chunks ≥ 1`, the selected chunk
list is non-empty. -/
theorem aggDoc_chunks_ne_nil {cs : List Chunk} {tc : Nat} {d : String}
    (h : cs ≠ []) (htc : 1 ≤ tc) : (aggDoc tc d cs).chunks ≠ [] := by
  have hlen : 0 < (sortBy chunkLe cs).length := by
    rw [(sortBy_perm _ _).length_eq]
    exact List.length_pos.mpr h
  have hpos : 0 < ((sortBy chunkLe cs).take tc).length := by
    rw [List.length_take]
    exact lt_min htc hlen
  exact List.length_pos.mp hpos

/-- With `top_chunks ≥ 1`, every aggregated document keeps at least one
chunk. -/
theorem aggregate_chunks_ne_nil {rows : List Row} {tc td : Nat}
    (htc : 1 ≤ tc) : ∀ d ∈ aggregate tc td rows, d.chunks ≠ [] := by
  intro dres hd
  have h1 : dres ∈ sortBy docLe ((groupRows rows).map fun p => aggDoc tc p.1 p.2) :=
    List.mem_of_mem_take hd
  have h2 : dres ∈ (groupRows rows).map fun p => aggDoc tc p.1 p.2 :=
    (sortBy_perm _ _).mem_iff.mp h1
  obtain ⟨p, hp, rfl⟩ := List.mem_map.mp h2
  exact aggDoc_chunks_ne_nil (groups_ne_nil_groupRows rows p hp) htc

/-- With an empty entity-row table, each chunk's entity stream is empty. -/
theorem entitiesForDoc_empty_linkage (cs : List Chunk) :
    entitiesForDoc (chunkToEntities []) cs = [] := by
  rw [entitiesForDoc]
  have h : (cs.flatMap fun c => chunkToEntities [] c.chunk_id) = [] := by
    induction cs with
    | nil => rfl
    | cons c cs ih => rw [List.flatMap_cons, ih]; rfl
  rw [h]
  rfl

/-- When the entity lookup is consulted and raises, `search_rag`
propagates the failure. -/
theorem search_rag_core_err (metaMap : String → Option DocMeta) (f : Fault)
    {rows : List Row} {top_docs top_chunks : Nat} (hrows : rows ≠ [])
    (htc : 1 ≤ top_chunks) (htd : 1 ≤ top_docs) :
    search_rag_core (fun _ => .error f) metaMap top_docs top_chunks true rows
      = .error f := by
  obtain ⟨d0, hd0⟩ := List.exists_mem_of_ne_nil _
    (@aggregate_ne_nil rows top_chunks top_docs hrows htd)
  obtain ⟨c0, hc0⟩ :=
    List.exists_mem_of_ne_nil _
      (@aggregate_chunks_ne_nil rows top_chunks top_docs htc d0 hd0)
  have hsel :
      ((aggregate top_chunks top_docs rows).flatMap fun d =>
        d.chunks.map Chunk.chunk_id) ≠ [] :=
    List.ne_nil_of_mem
      (List.mem_flatMap.mpr ⟨d0, hd0, List.mem_map_of_mem Chunk.chunk_id hc0⟩)
  have hre : rows.isEmpty = false := by
    cases rows with
    | nil => exact absurd rfl hrows
    | cons r rs => exact List.isEmpty_cons
  rw [search_rag_core]
  rw [if_neg (by rw [hre]; exact Bool.false_ne_true)]
  have hcond :
      (true && !((aggregate top_chunks top_docs rows).flatMap fun d =>
        d.chunks.map Chunk.chunk_id).isEmpty) = true := by
    simp [hsel]
  simp only [hcond, if_true]

/-- C5 (amended): when the entity-linkage lookup returns zero rows,
enrichment degrades to empty entity lists for all documents while the
document-ranking result (ids, averages, chunks) is returned unchanged;
but when the lookup raises, `search_rag` propagates the failure instead
of degrading. -/
theorem C5_enrichment_degradation_amended :
    (∀ (metaMap : String → Option DocMeta) (top_docs top_chunks : Nat)
       (include_entities : Bool) (rows : List Row) (rs : List DocResult),
        search_rag_core emptyLookup metaMap top_docs top_chunks include_entities rows
          = .ok rs →
          rs.map DocResult.document_id
              = (aggregate top_chunks top_docs rows).map DocAgg.document_id
          ∧ rs.map DocResult.avg_distance
              = (aggregate top_chunks top_docs rows).map DocAgg.avg_distance
          ∧ rs.map DocResult.chunks
              = (aggregate top_chunks top_docs rows).map DocAgg.chunks
          ∧ ∀ r ∈ rs, r.entities = [])
    ∧ (∀ (metaMap : String → Option DocMeta) (top_docs top_chunks : Nat)
        (rows : List Row) (f : Fault), rows ≠ [] → 1 ≤ top_chunks → 1 ≤ top_docs →
        search_rag_core (fun _ => .error f) metaMap top_docs top_chunks true rows
          = .error f) := by
  constructor
  · intro metaMap td tc ie rows rs h
    rw [search_rag_core] at h
    by_cases hre : rows.isEmpty = true
    · rw [if_pos hre] at h
      have hrs : ([] : List DocResult) = rs := by injection h
      have hrows : rows = [] := List.isEmpty_iff.mp hre
      subst hrows
      rw [← hrs]
      refine ⟨?_, ?_, ?_, by intro r hr; cases hr⟩ <;>
        simp [aggregate, groupRows, sortBy, List.take_nil]
    · rw [if_neg hre] at h
      simp only [emptyLookup, ite_self] at h
      have hrs : buildResults metaMap
          (fun _ cs => entitiesForDoc (chunkToEntities []) cs)
          (aggregate tc td rows) = rs := by injection h
      rw [← hrs]
      refine ⟨?_, ?_, ?_, ?_⟩
      · rw [buildResults, List.map_map]; rfl
      · rw [buildResults, List.map_map]; rfl
      · rw [buildResults, List.map_map]; rfl
      · intro r hr
        rw [buildResults] at hr
        obtain ⟨d, _, rfl⟩ := List.mem_map.mp hr
        exact entitiesForDoc_empty_linkage d.chunks
  · intro metaMap td tc rows f hrows htc htd
    exact search_rag_core_err metaMap f hrows htc htd

/-- C5 counterexample: with a one-row pool and an unreachable entity
lookup, `search_rag` aborts with the collaborator fault rather than
degrading to empty entity lists, and `search_rag_plus_graph` then replaces
the whole (non-empty) ranking result by the empty list. -/
theorem C5_enrichment_degradation_counterexample :
    search_rag_core downLookup noMeta 5 3 true oneRow
        = .error (.collaborator "entity lookup unreachable")
    ∧ ragPhase downLookup noMeta 5 oneRow = []
    ∧ aggregate 3 5 oneRow ≠ [] :=
  ⟨rfl, rfl, by decide⟩

/-- Witness for C5 (amended): the failure branch at the concrete one-row
pool with an unreachable lookup. -/
theorem C5_enrichment_degradation_witness :
    oneRow ≠ [] ∧
    search_rag_core (fun _ => .error (.collaborator "down")) noMeta 5 3 true oneRow
      = .error (.collaborator "down") :=
  ⟨by decide,
    C5_enrichment_degradation_amended.2 noMeta 5 3 oneRow (.collaborator "down")
      (by decide) (by decide) (by decide)⟩

/-- When no selected chunk of a document has linked entities, its enriched
entity list is empty. -/
theorem entitiesForDoc_eq_nil {m : String → List Entity} {cs : List Chunk}
    (h : ∀ c ∈ cs, m c.chunk_id = []) : entitiesForDoc m cs = [] := by
  rw [entitiesForDoc]
  have hstream : (cs.flatMap fun c => m c.chunk_id) = [] := by
    induction cs with
    | nil => rfl
    | cons c cs ih =>
      rw [List.flatMap_cons, h c (List.mem_cons.mpr (Or.inl rfl)),
        ih fun c' hc' => h c' (List.mem_cons.mpr (Or.inr hc'))]
      rfl
  rw [hstream]
  rfl

/-- C10: a ranked document whose metadata lookup returns no row is still
included in the results at its rank position, with `title`, `source_url`
and `sha256` equal to `None`, its ranking fields unchanged, and its
entity list defaulting to the empty list when no selected chunk has a
linked entity.  A missing metadata row never drops the document and never
raises. -/
theorem C10_missing_metadata
    (entRows : List EntityRow) (metaMap : String → Option DocMeta)
    (docs_list : List DocAgg) (i : Nat) (hi : i < docs_list.length)
    (hmeta : metaMap (docs_list.get ⟨i, hi⟩).document_id = none) :
    (buildResults metaMap (fun _ cs => entitiesForDoc (chunkToEntities entRows) cs)
        docs_list).length = docs_list.length
    ∧ ∀ hri : i < (buildResults metaMap
        (fun _ cs => entitiesForDoc (chunkToEntities entRows) cs) docs_list).length,
      ((buildResults metaMap (fun _ cs => entitiesForDoc (chunkToEntities entRows) cs)
          docs_list).get ⟨i, hri⟩).document_id = (docs_list.get ⟨i, hi⟩).document_id
      ∧ ((buildResults metaMap (fun _ cs => entitiesForDoc (chunkToEntities entRows) cs)
          docs_list).get ⟨i, hri⟩).title = none
      ∧ ((buildResults metaMap (fun _ cs => entitiesForDoc (chunkToEntities entRows) cs)
          docs_list).get ⟨i, hri⟩).source_url = none
      ∧ ((buildResults metaMap (fun _ cs => entitiesForDoc (chunkToEntities entRows) cs)
          docs_list).get ⟨i, hri⟩).sha256 = none
      ∧ ((buildResults metaMap (fun _ cs => entitiesForDoc (chunkToEntities entRows) cs)
          docs_list).get ⟨i, hri⟩).avg_distance = (docs_list.get ⟨i, hi⟩).avg_distance
      ∧ ((buildResults metaMap (fun _ cs => entitiesForDoc (chunkToEntities entRows) cs)
          docs_list).get ⟨i, hri⟩).chunks = (docs_list.get ⟨i, hi⟩).chunks
      ∧ ((buildResults metaMap (fun _ cs => entitiesForDoc (chunkToEntities entRows) cs)
          docs_list).get ⟨i, hri⟩).entities
          = entitiesForDoc (chunkToEntities entRows) (docs_list.get ⟨i, hi⟩).chunks
      ∧ ((∀ c ∈ (docs_list.get ⟨i, hi⟩).chunks,
            chunkToEntities entRows c.chunk_id = []) →
          ((buildResults metaMap
            (fun _ cs => entitiesForDoc (chunkToEntities entRows) cs)
              docs_list).get ⟨i, hri⟩).entities = []) := by
  constructor
  · rw [buildResults, List.length_map]
  · intro hri
    have hget : (buildResults metaMap
        (fun _ cs => entitiesForDoc (chunkToEntities entRows) cs)
          docs_list).get ⟨i, hri⟩
        = (fun d : DocAgg =>
            ({ document_id := d.document_id
               title := (metaMap d.document_id).bind DocMeta.title
               source_url := (metaMap d.document_id).bind DocMeta.source_url
               sha256 := (metaMap d.document_id).bind DocMeta.sha256
               avg_distance := d.avg_distance
               chunks := d.chunks
               entities := entitiesForDoc (chunkToEntities entRows) d.chunks }
              : DocResult)) (docs_list.get ⟨i, hi⟩) :=
      List.get_map _
    rw [hget]
    refine ⟨rfl, ?_, ?_, ?_, rfl, rfl, rfl, ?_⟩
    · simp only [hmeta, Option.none_bind]
    · simp only [hmeta, Option.none_bind]
    · simp only [hmeta, Option.none_bind]
    · intro hnone
      exact entitiesForDoc_eq_nil hnone

/-- Witness for C10: a one-document ranking with an empty metadata table
and an empty entity table keeps the document with null metadata and empty
entities. -/
theorem C10_missing_metadata_witness :
    noMeta oneDocAgg.document_id = none ∧
    ((buildResults noMeta (fun _ cs => entitiesForDoc (chunkToEntities []) cs)
        [oneDocAgg]).get ⟨0, by decide⟩).title = none :=
  ⟨rfl,
    ((C10_missing_metadata [] noMeta [oneDocAgg] 0 (by decide) rfl).2 (by decide)).2.1⟩

/-- C9: the hit-flattening step emits exactly one `RankedHit` per chunk of
every document (the sorted list is a permutation of the per-chunk image),
with `score = -distance`, sorts the hits descending by score, and
truncates to the limit `top_k * 3`.  Scenario E: 3 documents, each with
chunks at distances [0.1, 0.2, 0.3], limit 6, yields 6 hits with scores
−[0.1, 0.1, 0.1, 0.2, 0.2, 0.2] in descending order. -/
theorem C9_hit_flattening (results : List DocResult) (top_k : Nat) :
    flattenHits results top_k
        = (sortBy hitGe (results.flatMap fun d => d.chunks.map (mkHit d))).take
            (top_k * 3)
    ∧ (sortBy hitGe (results.flatMap fun d => d.chunks.map (mkHit d))).Perm
        (results.flatMap fun d => d.chunks.map (mkHit d))
    ∧ (∀ d ∈ results, ∀ c ∈ d.chunks, (mkHit d c).score = -c.distance)
    ∧ (flattenHits results top_k).Pairwise (fun a b => b.score ≤ a.score)
    ∧ (flattenHits results top_k).length
        = min (top_k * 3) (results.flatMap fun d => d.chunks.map (mkHit d)).length
    ∧ (flattenHits scenarioEResults 2).map RankedHit.score
        = [-(1/10), -(1/10), -(1/10), -(1/5), -(1/5), -(1/5)] := by
  have htot : ∀ a b : RankedHit, hitGe a b = true ∨ hitGe b a = true := by
    intro a b
    simp only [hitGe, decide_eq_true_eq]
    exact le_total b.score a.score
  have htrans : ∀ a b c : RankedHit,
      hitGe a b = true → hitGe b c = true → hitGe a c = true := by
    intro a b c hab hbc
    simp only [hitGe, decide_eq_true_eq] at hab hbc ⊢
    exact le_trans hbc hab
  refine ⟨rfl, sortBy_perm _ _, fun d _ c _ => rfl, ?_, ?_, ?_⟩
  · have hs := pairwise_sortBy htot htrans
      (results.flatMap fun d => d.chunks.map (mkHit d))
    exact (List.Pairwise.sublist (List.take_sublist _ _) hs).imp
      (fun h => by simpa [hitGe, decide_eq_true_eq] using h)
  · rw [flattenHits, List.length_take, (sortBy_perm _ _).length_eq]
  · norm_num [flattenHits, scenarioEResults, sortBy, insertBy, hitGe, mkHit]

/-- The node data built from a payload carries the payload's truthy id. -/
theorem nodeDataOfPayload_id (n : NodePayload) (nid : String) :
    (nodeDataOfPayload n nid).id = nid := by
  rw [nodeDataOfPayload]
  split_ifs <;> rfl

/-- One node-loop step preserves: accumulated ids are distinct, and the
`added_nodes` set holds exactly the accumulated ids. -/
theorem addNodeStep_inv {st : List GraphNodeData × List String}
    (h1 : (st.1.map GraphNodeData.id).Nodup)
    (h2 : ∀ s, s ∈ st.2 ↔ s ∈ st.1.map GraphNodeData.id) (n : NodePayload) :
    ((addNodeStep st n).1.map GraphNodeData.id).Nodup
    ∧ ∀ s, s ∈ (addNodeStep st n).2 ↔ s ∈ (addNodeStep st n).1.map GraphNodeData.id := by
  cases hid : n.id with
  | none =>
    simp only [addNodeStep, hid]
    exact ⟨h1, h2⟩
  | some nid =>
    simp only [addNodeStep, hid]
    by_cases hc : nid ≠ "" ∧ nid ∉ st.2
    · rw [if_pos hc]
      have hmap : ((st.1 ++ [nodeDataOfPayload n nid]).map GraphNodeData.id)
          = st.1.map GraphNodeData.id ++ [nid] := by
        rw [List.map_append]
        simp [nodeDataOfPayload_id]
      constructor
      · rw [hmap, List.nodup_append]
        refine ⟨h1, List.nodup_singleton _, ?_⟩
        intro x hx hx'
        rw [List.mem_singleton] at hx'
        subst hx'
        exact hc.2 ((h2 x).mpr hx)
      · intro s
        rw [hmap, List.mem_cons, List.mem_append, List.mem_singleton, h2 s, or_comm]
    · rw [if_neg hc]
      exact ⟨h1, h2⟩

/-- The node loop keeps ids distinct and the seen set synchronized. -/
theorem addNodes_foldl_inv (ns : List NodePayload) :
    ∀ st : List GraphNodeData × List String,
      (st.1.map GraphNodeData.id).Nodup →
      (∀ s, s ∈ st.2 ↔ s ∈ st.1.map GraphNodeData.id) →
      ((ns.foldl addNodeStep st).1.map GraphNodeData.id).Nodup
      ∧ ∀ s, s ∈ (ns.foldl addNodeStep st).2
          ↔ s ∈ (ns.foldl addNodeStep st).1.map GraphNodeData.id := by
  induction ns with
  | nil => intro st h1 h2; exact ⟨h1, h2⟩
  | cons n ns ih =>
    intro st h1 h2
    rw [List.foldl_cons]
    obtain ⟨h1', h2'⟩ := addNodeStep_inv h1 h2 n
    exact ih _ h1' h2'

/-- One edge-loop step preserves: accumulated edge ids are distinct, the
`added_edges` set holds exactly them, and every accumulated edge's id is
the deterministic function of its `(source, target, label)` triple. -/
theorem addEdgeStep_inv {st : List GraphEdgeData × List String}
    (h1 : (st.1.map GraphEdgeData.id).Nodup)
    (h2 : ∀ s, s ∈ st.2 ↔ s ∈ st.1.map GraphEdgeData.id)
    (h3 : ∀ e ∈ st.1, e.id = edgeId e.source e.target e.label)
    (p : EdgePayload) :
    ((addEdgeStep st p).1.map GraphEdgeData.id).Nodup
    ∧ (∀ s, s ∈ (addEdgeStep st p).2 ↔ s ∈ (addEdgeStep st p).1.map GraphEdgeData.id)
    ∧ ∀ e ∈ (addEdgeStep st p).1, e.id = edgeId e.source e.target e.label := by
  cases hs : p.s with
  | none =>
    simp only [addEdgeStep, hs]
    exact ⟨h1, h2, h3⟩
  | some source =>
    cases ht : p.t with
    | none =>
      simp only [addEdgeStep, hs, ht]
      exact ⟨h1, h2, h3⟩
    | some target =>
      simp only [addEdgeStep, hs, ht]
      by_cases hc : source ≠ "" ∧ target ≠ ""
      · rw [if_pos hc]
        by_cases hin : edgeId source target (p.label.getD "") ∈ st.2
        · rw [if_neg (by simpa using hin)]
          exact ⟨h1, h2, h3⟩
        · rw [if_pos (by simpa using hin)]
          have hmap : ((st.1 ++
                [({ id := edgeId source target (p.label.getD ""),
                    source := source, target := target,
                    label := p.label.getD "" } : GraphEdgeData)]).map GraphEdgeData.id)
              = st.1.map GraphEdgeData.id
                ++ [edgeId source target (p.label.getD "")] := by
            rw [List.map_append]
            rfl
          refine ⟨?_, ?_, ?_⟩
          · rw [hmap, List.nodup_append]
            refine ⟨h1, List.nodup_singleton _, ?_⟩
            intro x hx hx'
            rw [List.mem_singleton] at hx'
            exact hin (hx' ▸ (h2 x).mpr hx)
          · intro s
            rw [hmap, List.mem_cons, List.mem_append, List.mem_singleton, h2 s, or_comm]
          · intro e he
            rcases List.mem_append.mp he with he' | he'
            · exact h3 e he'
            · rw [List.mem_singleton] at he'
              subst he'
              rfl
      · rw [if_neg hc]
        exact ⟨h1, h2, h3⟩

/-- The edge loop keeps ids distinct, the seen set synchronized, and ids
determined by the `(source, target, label)` triple. -/
theorem addEdges_foldl_inv (es : List EdgePayload) :
    ∀ st : List GraphEdgeData × List String,
      (st.1.map GraphEdgeData.id).Nodup →
      (∀ s, s ∈ st.2 ↔ s ∈ st.1.map GraphEdgeData.id) →
      (∀ e ∈ st.1, e.id = edgeId e.source e.target e.label) →
      ((es.foldl addEdgeStep st).1.map GraphEdgeData.id).Nodup
      ∧ (∀ s, s ∈ (es.foldl addEdgeStep st).2
          ↔ s ∈ (es.foldl addEdgeStep st).1.map GraphEdgeData.id)
      ∧ ∀ e ∈ (es.foldl addEdgeStep st).1, e.id = edgeId e.source e.target e.label := by
  induction es with
  | nil => intro st h1 h2 h3; exact ⟨h1, h2, h3⟩
  | cons e es ih =>
    intro st h1 h2 h3
    rw [List.foldl_cons]
    obtain ⟨h1', h2', h3'⟩ := addEdgeStep_inv h1 h2 h3 e
    exact ih _ h1' h2' h3'

/-- Node ids of one assembled record are pairwise distinct. -/
theorem processRec_nodes_nodup (gr : GraphRec) :
    ((processRec gr).nodes.map GraphNodeData.id).Nodup :=
  (addNodes_foldl_inv _ ([], []) List.Pairwise.nil (by intro s; simp)).1

/-- Edge ids of one assembled record are pairwise distinct. -/
theorem processRec_edges_nodup (gr : GraphRec) :
    ((processRec gr).edges.map GraphEdgeData.id).Nodup :=
  (addEdges_foldl_inv _ ([], []) List.Pairwise.nil (by intro s; simp)
    (by intro e he; cases he)).1

/-- Every assembled edge's id is the pure function of its triple. -/
theorem processRec_edges_id (gr : GraphRec) :
    ∀ e ∈ (processRec gr).edges, e.id = edgeId e.source e.target e.label :=
  (addEdges_foldl_inv _ ([], []) List.Pairwise.nil (by intro s; simp)
    (by intro e he; cases he)).2.2

/-- C6: within one graph-assembly call, for every collaborator record
(repeated or overlapping payloads included) no two returned nodes share an
id, no two returned edges share an id, and there is at most one edge per
`(source, target, label)` triple.  Scenario D: two keys with the same
content hash and ordinals 0 and 1 yield exactly 1 document node, 2 chunk
nodes and 2 `HAS_CHUNK` edges. -/
theorem C6_graph_dedup :
    (∀ gr : GraphRec,
      ((processRec gr).nodes.map GraphNodeData.id).Nodup
      ∧ ((processRec gr).edges.map GraphEdgeData.id).Nodup
      ∧ ∀ e1 ∈ (processRec gr).edges, ∀ e2 ∈ (processRec gr).edges,
          e1.source = e2.source → e1.target = e2.target → e1.label = e2.label →
            e1 = e2)
    ∧ ((graphPhase (fun vks => .ok (cypherRespond scenarioDStore vks 4))
          scenarioDKeys).nodes.filter fun n => n.type = "doc").length = 1
    ∧ ((graphPhase (fun vks => .ok (cypherRespond scenarioDStore vks 4))
          scenarioDKeys).nodes.filter fun n => n.type = "chunk").length = 2
    ∧ ((graphPhase (fun vks => .ok (cypherRespond scenarioDStore vks 4))
          scenarioDKeys).edges.filter fun e => e.label = "HAS_CHUNK").length = 2
    ∧ (graphPhase (fun vks => .ok (cypherRespond scenarioDStore vks 4))
        scenarioDKeys).nodes.length = 3
    ∧ (graphPhase (fun vks => .ok (cypherRespond scenarioDStore vks 4))
        scenarioDKeys).edges.length = 2 := by
  refine ⟨?_, by decide, by decide, by decide, by decide, by decide⟩
  intro gr
  refine ⟨processRec_nodes_nodup gr, processRec_edges_nodup gr, ?_⟩
  intro e1 h1 e2 h2 hs ht hl
  have hid : e1.id = e2.id := by
    rw [processRec_edges_id gr e1 h1, processRec_edges_id gr e2 h2, hs, ht, hl]
  exact List.inj_on_of_nodup_map (processRec_edges_nodup gr) h1 h2 hid

/-- Witness for C6: a record carrying the same `HAS_CHUNK` edge payload
twice produces exactly one edge, with distinct edge ids. -/
theorem C6_graph_dedup_witness :
    (processRec dupEdgeRec).edges.length = 1
    ∧ ((processRec dupEdgeRec).edges.map GraphEdgeData.id).Nodup :=
  ⟨by decide, (C6_graph_dedup.1 dupEdgeRec).2.1⟩

/-- C7: graph node and edge identifiers are pure functions of their
semantic keys — the chunk node id is `chunk:<content_hash>:<ordinal>`, the
document node id `doc:<content_hash>`, the entity node id
`entity:<entity_key>`, and every assembled edge's id is
`e:<source>-><target>:<label>`; hence two assembly calls with identical
keys and configuration produce identical results, in particular identical
node id sets and edge id sets. -/
theorem C7_stable_ids (store : List StoreDoc) (keys keys' : List RawKey)
    (maxEnt : Nat) (hk : keys = keys') :
    (∀ (d : StoreDoc) (c : StoreChunk),
        (chunkPayload d c).id = some ("chunk:" ++ d.sha256 ++ ":" ++ toString c.ord))
    ∧ (∀ d : StoreDoc, (docPayload d).id = some ("doc:" ++ d.sha256))
    ∧ (∀ e : StoreEntity, (entPayload e).id = some ("entity:" ++ e.elementId))
    ∧ (∀ gr : GraphRec, ∀ e ∈ (processRec gr).edges,
        e.id = "e:" ++ e.source ++ "->" ++ e.target ++ ":" ++ e.label)
    ∧ assembleGraph store keys maxEnt = assembleGraph store keys' maxEnt := by
  subst hk
  exact ⟨fun d c => rfl, fun d => rfl, fun e => rfl,
    fun gr => processRec_edges_id gr, rfl⟩

/-- Witness for C7: the `(h, 0)` key yields the chunk node id
`chunk:h:0`, and assembling Scenario D twice gives equal results. -/
theorem C7_stable_ids_witness :
    (chunkPayload scenarioDDoc scenarioDChunk).id = some "chunk:h:0"
    ∧ assembleGraph scenarioDStore scenarioDKeys 4
        = assembleGraph scenarioDStore scenarioDKeys 4 :=
  ⟨((C7_stable_ids scenarioDStore scenarioDKeys scenarioDKeys 4 rfl).1
      scenarioDDoc scenarioDChunk).trans (by decide),
    (C7_stable_ids scenarioDStore scenarioDKeys scenarioDKeys 4 rfl).2.2.2.2⟩

/-- C8: every chunk key lacking a non-empty `sha256` or an
integer-coercible `ord` is skipped without aborting the call (removing it
changes nothing), and when no valid key remains the call returns the empty
graph without erroring and without consulting the graph collaborator. -/
theorem C8_key_validation :
    (∀ k : RawKey,
      (k.sha256 = none ∨ k.sha256 = some "" ∨ k.ord = none
          ∨ k.ord = some OrdField.notCoercible) →
        validateKey k = none
        ∧ ∀ (ks1 ks2 : List RawKey)
            (gs : List ChunkKey → Except Fault (Option GraphRec)),
            build_graph_for_chunks gs (ks1 ++ k :: ks2)
              = build_graph_for_chunks gs (ks1 ++ ks2))
    ∧ ∀ (keys : List RawKey)
        (gs gs' : List ChunkKey → Except Fault (Option GraphRec)),
        validKeys keys = [] →
          build_graph_for_chunks gs keys = .ok { nodes := [], edges := [] }
          ∧ build_graph_for_chunks gs keys = build_graph_for_chunks gs' keys := by
  constructor
  · intro k hk
    have hnone : validateKey k = none := by
      cases hs : k.sha256 with
      | none => simp [validateKey, hs]
      | some s =>
        cases ho : k.ord with
        | none => simp [validateKey, hs, ho]
        | some o =>
          rcases hk with h | h | h | h
          · rw [hs] at h
            exact Option.noConfusion h
          · rw [hs] at h
            injection h with h'
            subst h'
            simp [validateKey, hs, ho]
          · rw [ho] at h
            exact Option.noConfusion h
          · rw [ho] at h
            injection h with h'
            subst h'
            simp [validateKey, hs, ho]
    refine ⟨hnone, ?_⟩
    intro ks1 ks2 gs
    have hvk : validKeys (ks1 ++ k :: ks2) = validKeys (ks1 ++ ks2) := by
      simp only [validKeys, List.filterMap_append, List.filterMap_cons, hnone]
    simp only [build_graph_for_chunks, hvk]
  · intro keys gs gs' hvk
    constructor
    · simp [build_graph_for_chunks, hvk]
    · simp [build_graph_for_chunks, hvk]

/-- Witness for C8: a key with empty `sha256` is invalid, and a call with
only that key returns the empty graph even under an unavailable
collaborator. -/
theorem C8_key_validation_witness :
    validateKey invalidKey = none
    ∧ build_graph_for_chunks downGraphSource [invalidKey]
        = .ok { nodes := [], edges := [] } :=
  ⟨(C8_key_validation.1 invalidKey (Or.inr (Or.inl rfl))).1,
    (C8_key_validation.2 [invalidKey] downGraphSource downGraphSource rfl).1⟩

/-- C4: any failure raised by the graph collaborator during assembly is
propagated to the caller as a distinct failure kind (the call never
returns a partially-built graph alongside the exception: its outcome is
the error, not an `ok` graph), while with no valid key the call falls back
to the empty graph without consulting the collaborator. -/
theorem C4_structural_failure
    (gs : List ChunkKey → Except Fault (Option GraphRec)) (keys : List RawKey)
    (f : Fault) :
    (validKeys keys ≠ [] → gs (validKeys keys) = .error f →
      build_graph_for_chunks gs keys = .error f
      ∧ ∀ g : GraphElements, build_graph_for_chunks gs keys ≠ .ok g)
    ∧ (validKeys keys = [] →
        build_graph_for_chunks gs keys = .ok { nodes := [], edges := [] }) := by
  constructor
  · intro hne herr
    have hbuild : build_graph_for_chunks gs keys = .error f := by
      simp only [build_graph_for_chunks]
      rw [if_neg (by simpa [List.isEmpty_iff] using hne), herr]
    refine ⟨hbuild, ?_⟩
    intro g hok
    rw [hbuild] at hok
    exact Except.noConfusion hok
  · intro hvk
    simp [build_graph_for_chunks, hvk]

/-- Witness for C4: with an unavailable collaborator and the (valid)
Scenario D keys, assembly propagates the collaborator fault. -/
theorem C4_structural_failure_witness :
    validKeys scenarioDKeys ≠ []
    ∧ build_graph_for_chunks downGraphSource scenarioDKeys
        = .error (.collaborator "neo4j unavailable") :=
  ⟨by decide,
    ((C4_structural_failure downGraphSource scenarioDKeys
      (.collaborator "neo4j unavailable")).1 (by decide) rfl).1⟩

/-- Witness for C9: Scenario E evaluated — 6 hits with descending scores
−[0.1, 0.1, 0.1, 0.2, 0.2, 0.2]. -/
theorem C9_hit_flattening_witness :
    (flattenHits scenarioEResults 2).map RankedHit.score
      = [-(1/10), -(1/10), -(1/10), -(1/5), -(1/5), -(1/5)] :=
  (C9_hit_flattening scenarioEResults 2).2.2.2.2.2

/-- Witness for C2 (amended): the utils-side empty-pool outcome at a
concrete configuration. -/
theorem C2_empty_pool_witness :
    search_rag_core emptyLookup noMeta 5 3 true [] = .ok [] :=
  C2_empty_pool_amended.1 emptyLookup noMeta 5 3 true

end AtlasKG
